import Mathlib

/-!
Verification development for the sftp mex interface (`mexsftp.c`) of the
glider_toolbox repository.  C strings are embedded as `List Char` (a C string
never contains the NUL terminator, so list emptiness models `*s == '\0'`);
nullable pointers are embedded as `Option`; machine integers that the code can
drive negative are embedded as `Int`, unsigned 64-bit offsets as `Nat`
(no overflow is reachable at the file sizes the code handles).
-/

namespace Mexsftp

/-! ### Path resolution: `prepend_pwd` and `expand_path`

```c
static char * prepend_pwd(const char *path, const char *pwd)
{
  ...
  if (! path) full = NULL;
  else if (! pwd) full = strdup(path);
  else {
    m = strlen(pwd); n = strlen(path);
    full = malloc(m + n + 2);
    if (full) {
      strncpy(full, pwd, m + 1);
      if ( m > 0 && pwd[m-1] != '/') strncat(full, "/", 2);
      strncat(full, path, n + 1);
    }
  }
  return full;
}
static char * expand_path(const char *path, const char *pwd)
{
  full = (path && path[0] == '/') ? strdup(path) : prepend_pwd(path, pwd);
  return full;
}
```
Allocation is assumed to succeed; the NULL-path case surfaces as `Option.none`
in the connection-level models below. -/

def prepend_pwd (path : List Char) (pwd : Option (List Char)) : List Char :=
  match pwd with
  | none => path
  | some d => d ++ (if d ≠ [] ∧ d.getLast? ≠ some '/' then ['/'] else []) ++ path

def expand_path (path : List Char) (pwd : Option (List Char)) : List Char :=
  if path.head? = some '/' then path else prepend_pwd path pwd

/-! ### Directory-entry filtering: `exclude_directory_entry` and the
`lsdir_sftp_connection` accumulation loop

```c
static int exclude_directory_entry(const char* name)
{
  if (! name) exclude = 0;
  else exclude = (name[0] == '.');
  return exclude;
}
```
An entry's `name` field may be NULL (then it is not excluded). -/

structure DirEntry where
  name : Option (List Char)
  deriving DecidableEq, Repr

def exclude_directory_entry (name : Option (List Char)) : Bool :=
  match name with
  | none => false
  | some n => n.head? = some '.'

/-- The `while ((atts = sftp_readdir(...)) && (exclude_directory_entry(...)
|| addtail_sftp_attributes_list(...))) {}` loop of `lsdir_sftp_connection`:
entries arrive in server enumeration order, excluded ones are skipped, kept
ones are appended at the tail.  List allocation is assumed to succeed. -/
def lsdir_loop (acc : List DirEntry) : List DirEntry → List DirEntry
  | [] => acc
  | e :: rest =>
      if exclude_directory_entry e.name then lsdir_loop acc rest
      else lsdir_loop (acc ++ [e]) rest

/-- `lsdir_sftp_connection` after the read loop: the stream must have ended at
end-of-file (`sftp_dir_eof`) and `sftp_closedir` must succeed, otherwise the
accumulated sequence is discarded and an error is surfaced.  `entries` is the
sequence of records the server enumerates before the stream ends. -/
def lsdir_sftp_connection (entries : List DirEntry) (dirEof : Bool)
    (closeOk : Bool) : Except String (List DirEntry) :=
  if ¬ dirEof then .error "readdir error"
  else if ¬ closeOk then .error "closedir error"
  else .ok (lsdir_loop [] entries)

/-! ### Glob matching: `glob_match` and `glob_name_match`

```c
static int glob_match(const char* glob, const char* str)
{
  if (*glob == '\0') match = (*str == '\0');
  else if (*glob == '*')
    do match = glob_match(glob + 1, str); while (*str++ && ! match);
  else if (*glob == '?' && *str) match = glob_match(glob + 1, str + 1);
  else if (*glob == *str) match = glob_match(glob + 1, str + 1);
  else match = 0;
  return match;
}
```
The `do`/`while` over `'*'` tries the rest of the pattern against every
suffix of `str`, shortest skip first, stopping at the first success; that is
the disjunction unfolded by the second and third equations below. -/

def glob_match : List Char → List Char → Bool
  | [], s => s.isEmpty
  | '*' :: g, [] => glob_match g []
  | '*' :: g, c :: s => glob_match g (c :: s) || glob_match ('*' :: g) s
  | '?' :: g, _ :: s => glob_match g s
  | '?' :: _, [] => false
  | c :: g, d :: s => c = d && glob_match g s
  | _ :: _, [] => false
termination_by g s => (g.length, s.length)

/-- ```c
static int glob_name_match(const char* glob, const char* name)
{
  if (! (glob && name)) match = 0;
  else if (*glob == '*' && *name == '.') match = 0;
  else if (*glob == '?' && *name == '.') match = 0;
  else match = glob_match(glob, name);
}
``` (both pointers non-NULL here). -/
def glob_name_match (glob name : List Char) : Bool :=
  if glob.head? = some '*' ∧ name.head? = some '.' then false
  else if glob.head? = some '?' ∧ name.head? = some '.' then false
  else glob_match glob name

/-- The specification's wildcard relation: `*` matches any run of characters
including the empty run, `?` matches exactly one character, a literal matches
only itself, and the whole pattern must consume the whole name. -/
inductive GlobMatches : List Char → List Char → Prop where
  | nil : GlobMatches [] []
  | star (g : List Char) (u t : List Char) :
      GlobMatches g t → GlobMatches ('*' :: g) (u ++ t)
  | one (g : List Char) (c : Char) (s : List Char) :
      GlobMatches g s → GlobMatches ('?' :: g) (c :: s)
  | lit (g : List Char) (c : Char) (s : List Char) :
      c ≠ '*' → c ≠ '?' → GlobMatches g s → GlobMatches (c :: g) (c :: s)

/-- The dotfile-exclusion side condition of `glob_name_match`: a pattern whose
first character is `*` or `?` must not be applied to a name whose first
character is `.`. -/
def leadingWildcardDotfile (glob name : List Char) : Prop :=
  (glob.head? = some '*' ∨ glob.head? = some '?') ∧ name.head? = some '.'

instance (glob name : List Char) : Decidable (leadingWildcardDotfile glob name) := by
  unfold leadingWildcardDotfile; infer_instance

/-! ### `cwd_sftp_connection` (changeDirectory) -/

def SSH_OK : Int := 0
def SSH_ERROR : Int := -1
def SSH_AGAIN : Int := -2
def SSH_FX_NO_CONNECTION : Int := 6
def SSH_FILEXFER_TYPE_DIRECTORY : Nat := 2

structure SftpAttr where
  type : Nat
  deriving DecidableEq, Repr

/-- Server-side collaborators of `cwd_sftp_connection`:
`sftp_canonicalize_path` and `sftp_stat` (NULL result on failure),
and the code `ssh_get_error_code` reports after a failed round trip. -/
structure CwdEnv where
  canonicalize : List Char → Option (List Char)
  statAttr : List Char → Option SftpAttr
  errorCode : Int

/-- The connection state `cwd_sftp_connection` reads and writes: whether
`conn->sftp` is non-NULL, and the stored working directory `conn->pwd`. -/
structure SftpConn where
  sftpOpen : Bool
  pwd : Option (List Char)
  deriving DecidableEq

/-- `cwd_sftp_connection` (mexsftp.c lines 499-553).  `path = none` models a
NULL path pointer, which makes `expand_path` return NULL ("Memory error"
branch).  Returns `((rc, message), updated connection)`; the message is the
empty string on the success path (the C code leaves `*message` untouched
there). -/
def cwd_sftp_connection (env : CwdEnv) (conn : SftpConn)
    (path : Option (List Char)) : (Int × String) × SftpConn :=
  if ¬ conn.sftpOpen then ((SSH_FX_NO_CONNECTION, "Not open sftp connection"), conn)
  else
    match path.map (fun p => expand_path p conn.pwd) with
    | none => ((SSH_ERROR, "Memory error"), conn)
    | some nwd =>
      match env.canonicalize nwd with
      | none => ((env.errorCode, "Could not get new working directory"), conn)
      | some cwd =>
        match env.statAttr cwd with
        | none => ((env.errorCode, "Could not check new working directory"), conn)
        | some atts =>
          if atts.type ≠ SSH_FILEXFER_TYPE_DIRECTORY then
            ((SSH_ERROR, "Not a directory"), conn)
          else ((SSH_OK, ""), { conn with pwd := some cwd })

/-! ### `putfile_sftp_connection` (upload)

```c
for (rlen = fread(buff, 1, blen, lfile), rerr = (rlen < 0), werr = 0;
     (! rerr) && (! werr) && (rlen > 0);
     rlen = fread(buff, 1, blen, lfile), rerr = (rlen < 0)) {
  werr = sftp_write(rfile, buff, rlen) - rlen;
}
```
`fread` results are indexed by chunk number (`readLen k` is the k-th call's
return value, a `size_t`, hence a `Nat`); `writeRes k` is what `sftp_write`
returns for the k-th written chunk.  The loop is run with fuel (`none` means
the fuel ran out before the loop exited); the returned list records the
`sftp_write` return values of the chunks actually written. -/

structure PutEnv where
  readLen : Nat → Nat
  writeRes : Nat → Int
  rcloseOk : Bool
  lcloseOk : Bool

def putfile_loop (env : PutEnv) :
    Nat → Nat → Bool → Bool → List Int → Option (Bool × Bool × List Int)
  | 0, _, _, _, _ => none
  | fuel + 1, k, rerr, werr, ws =>
      if rerr = false ∧ werr = false ∧ ((env.readLen k : Int) > 0) then
        putfile_loop env fuel (k + 1) (decide ((env.readLen (k + 1) : Int) < 0))
          (decide (env.writeRes k - (env.readLen k : Int) ≠ 0))
          (ws ++ [env.writeRes k])
      else some (rerr, werr, ws)

def putfile_sftp_connection (env : PutEnv) (fuel : Nat) :
    Option (Except String Unit × List Int) :=
  match putfile_loop env fuel 0 (decide ((env.readLen 0 : Int) < 0)) false [] with
  | none => none
  | some (rerr, werr, ws) =>
      some (if rerr then (.error "local read error", ws)
            else if werr then (.error "remote write error", ws)
            else if ¬ env.rcloseOk then (.error "remote close error", ws)
            else if ¬ env.lcloseOk then (.error "local close error", ws)
            else (.ok (), ws))

/-! ### `getfile_sftp_connection` (pipelined download)

The request window is the four arrays `reqs[32]`, `rsps[32]`, `lens[32]`,
`offs[32]` plus the counters of the C function; the libssh collaborators are
abstracted by `GetEnv`:
  * `sftp_async_read_begin` succeeds iff `beginOk` holds at the current
    issuance counter; on success it returns a fresh nonnegative identifier
    (the counter itself) and advances the libssh file offset by the requested
    length; on failure it returns a negative value and leaves the offset
    unchanged (libssh increments `file->offset` only after a successful send).
  * the resend path (`tell`/`seek`/`begin`/`seek`-back) restores the file
    offset, so its net cursor effect is nil; the same holds for the
    `tell`/`seek`/`read`/`seek`-back workaround in the collection loop.
  * `sftp_async_read` returns `poll cnt off len` where `off`/`len` are the
    polled request's offset and length (an in-flight slot's stored offset and
    length always equal those of its outstanding request, because the
    dispatch pass reissues every non-waiting slot before it is polled again).
    A positive result delivers that many bytes of the remote file starting at
    the request offset, which the code writes into the local file at the
    slot's offset (`fseek` + `fwrite`); `sinkOk` tells whether that positioned
    write succeeds.
  * `sftp_seek`/`sftp_seek64` on valid offsets succeed. -/

structure GetCell where
  req : Int
  rsp : Int
  len : Int
  off : Nat
  deriving DecidableEq, Repr

def zeroCell : GetCell := { req := 0, rsp := 0, len := 0, off := 0 }

structure GetEnv where
  size : Nat
  remote : Nat → Nat
  beginOk : Nat → Bool
  poll : Nat → Nat → Int → Int
  sinkOk : Nat → Bool
  lcloseOk : Bool
  rcloseOk : Bool

structure GetState where
  cells : List GetCell
  nreq : Nat
  reof : Bool
  rerr : Bool
  werr : Bool
  nbad : Int
  blen : Int
  rlen : Int
  cursor : Nat
  localFile : Nat → Option Nat
  beginCnt : Nat
  pollCnt : Nat
  sinkCnt : Nat

def getfile_init : GetState :=
  { cells := List.replicate 32 zeroCell, nreq := 1, reof := false, rerr := false,
    werr := false, nbad := 0, blen := 524288, rlen := 0, cursor := 0,
    localFile := fun _ => none, beginCnt := 0, pollCnt := 0, sinkCnt := 0 }

def getCell (st : GetState) (i : Nat) : GetCell := st.cells.getD i zeroCell

/-- `fseek(lfile, off, SEEK_SET)` followed by `fwrite` of the `n` response
bytes, which are the remote bytes starting at the request offset. -/
def writeRange (env : GetEnv) (f : Nat → Option Nat) (off n : Nat) :
    Nat → Option Nat :=
  fun x => if off ≤ x ∧ x < off + n then some (env.remote x) else f x

/-- One index of the first (dispatch) loop body of `getfile_sftp_connection`:
resend incomplete or unsent requests, retire or recycle complete slots, and
send new requests until end of file. -/
def dispatch_one (env : GetEnv) (st : GetState) (i : Nat) : GetState :=
  let c := getCell st i
  if c.req < 0 ∨ c.rsp ≠ SSH_AGAIN then
    if c.len ≠ 0 then
      let nbad1 := st.nbad - (if c.req < 0 then 1 else 0)
      let ok := env.beginOk st.beginCnt
      let id : Int := if ok then (st.beginCnt : Int) else -1
      let nbad2 := nbad1 + (if id < 0 then 1 else 0)
      { st with
        cells := st.cells.set i { req := id, rsp := SSH_AGAIN, len := c.len, off := c.off },
        nbad := nbad2, beginCnt := st.beginCnt + 1 }
    else if st.reof ∨ st.nbad ≠ 0 then
      let n2 := st.nreq - 1
      let last := getCell st n2
      { st with nreq := n2, cells := st.cells.set i last }
    else
      let ok := env.beginOk st.beginCnt
      let id : Int := if ok then (st.beginCnt : Int) else -1
      let nbad2 := st.nbad + (if id < 0 then 1 else 0)
      { st with
        cells := st.cells.set i
          { req := id, rsp := SSH_AGAIN, len := st.blen, off := st.cursor },
        cursor := if ok then st.cursor + st.blen.toNat else st.cursor,
        nbad := nbad2, beginCnt := st.beginCnt + 1 }
  else st

/-- `for (ireq = nreq - 1; (ireq >= 0) && (! rerr); ireq--)`: the argument is
one past the next index to process. -/
def dispatch_from (env : GetEnv) (st : GetState) : Nat → GetState
  | 0 => st
  | n + 1 => if st.rerr then st else dispatch_from env (dispatch_one env st n) n

/-- One index of the second (collection) loop body: poll the response of an
issued request; positive data is written at the slot's offset which then
advances, zero marks end of file and empties the slot, `SSH_AGAIN` keeps
waiting, anything else is a fatal read error. -/
def collect_one (env : GetEnv) (st : GetState) (i : Nat) : GetState :=
  let c := getCell st i
  if c.req ≥ 0 then
    let r := env.poll st.pollCnt c.off c.len
    let st1 := { st with pollCnt := st.pollCnt + 1 }
    if r > 0 then
      let ok := env.sinkOk st1.sinkCnt
      { st1 with
        werr := ! ok,
        localFile := if ok then writeRange env st1.localFile c.off r.toNat
                     else st1.localFile,
        sinkCnt := st1.sinkCnt + 1,
        rlen := if st1.rlen < r ∧ r < st1.blen ∧ st1.blen ≤ c.len then r else st1.rlen,
        cells := st1.cells.set i
          { req := c.req, rsp := r, len := c.len - r, off := c.off + r.toNat } }
    else if r = 0 then
      { st1 with
        reof := true,
        cells := st1.cells.set i { req := c.req, rsp := 0, len := 0, off := c.off } }
    else if r ≠ SSH_AGAIN then
      { st1 with
        rerr := true,
        cells := st1.cells.set i { req := c.req, rsp := r, len := c.len, off := c.off } }
    else
      { st1 with
        cells := st1.cells.set i { req := c.req, rsp := r, len := c.len, off := c.off } }
  else st

/-- `for (ireq = nreq - 1; (ireq >= 0) && (! rerr) && (! werr); ireq--)`. -/
def collect_from (env : GetEnv) (st : GetState) : Nat → GetState
  | 0 => st
  | n + 1 => if st.rerr ∨ st.werr then st
             else collect_from env (collect_one env st n) n

/-- The `for` update clause:
`nreq += (nbad > 0 || reof || nreq >= max_nreq) ? 0 : 1;`
`blen /= (0 < rlen && rlen < blen && blen > min_blen) ? 2 : 1;`. -/
def getfile_update (st : GetState) : GetState :=
  { st with
    nreq := if st.nbad > 0 ∨ st.reof ∨ st.nreq ≥ 32 then st.nreq else st.nreq + 1,
    blen := if 0 < st.rlen ∧ st.rlen < st.blen ∧ st.blen > 512 then st.blen / 2
            else st.blen }

def getfile_cycle (env : GetEnv) (st : GetState) : GetState :=
  let st1 := dispatch_from env st st.nreq
  let st2 := collect_from env st1 st1.nreq
  getfile_update st2

/-- The guard `(nreq > nbad) && (! rerr) && (! werr)` of the outer loop. -/
def getfile_cond (st : GetState) : Bool :=
  decide ((st.nreq : Int) > st.nbad) && ! st.rerr && ! st.werr

def getfile_step (env : GetEnv) (st : GetState) : GetState :=
  if getfile_cond st then getfile_cycle env st else st

def getfile_steps (env : GetEnv) : Nat → GetState
  | 0 => getfile_init
  | k + 1 => getfile_step env (getfile_steps env k)

/-- The epilogue of `getfile_sftp_connection`: `werr`, then `rerr`, then
`nbad > 0` surface as errors, then `fclose` and `sftp_close` may fail. -/
def getfile_finalize (env : GetEnv) (st : GetState) : Except String Unit :=
  if st.werr then .error "local write error"
  else if st.rerr then .error "remote read error"
  else if st.nbad > 0 then .error "pending bad requests"
  else if ¬ env.lcloseOk then .error "local close error"
  else if ¬ env.rcloseOk then .error "remote close error"
  else .ok ()

/-- Run the download loop for at most `fuel` cycles; `none` means the loop
was still running. -/
def getfile_run (env : GetEnv) (fuel : Nat) :
    Option (Except String Unit × GetState) :=
  let st := getfile_steps env fuel
  if getfile_cond st then none else some (getfile_finalize env st, st)

/-- Protocol conformance of the read responses: a zero (end-of-file) response
only at or past the file size; a positive response delivers at most the
requested length and never reads past the file size.  Negative responses
(`SSH_AGAIN` or read errors) are unconstrained. -/
def GetEnvConform (env : GetEnv) : Prop :=
  ∀ c o l, (env.poll c o l = 0 → env.size ≤ o) ∧
    (0 < env.poll c o l →
      env.poll c o l ≤ l ∧ o + (env.poll c o l).toNat ≤ env.size)

/-- Every `sftp_async_read_begin` issuance succeeds. -/
def GetEnvBeginOk (env : GetEnv) : Prop := ∀ n, env.beginOk n = true

/-- The byte ranges `[off, off + len)` of two request slots do not
intersect. -/
def rangesDisjoint (c d : GetCell) : Prop :=
  c.off + c.len.toNat ≤ d.off ∨ d.off + d.len.toNat ≤ c.off

instance (c d : GetCell) : Decidable (rangesDisjoint c d) := by
  unfold rangesDisjoint; infer_instance

/-- Pairwise disjointness of the byte ranges of the active request slots. -/
def activeDisjoint (st : GetState) : Prop :=
  ∀ i, i < st.nreq → ∀ j, j < st.nreq → i ≠ j →
    rangesDisjoint (getCell st i) (getCell st j)

instance (st : GetState) : Decidable (activeDisjoint st) := by
  unfold activeDisjoint
  exact Nat.decidableBallLT _ _

/-- Membership of byte offset `x` in a slot's remaining range. -/
def inRange (c : GetCell) (x : Nat) : Prop :=
  c.off ≤ x ∧ x < c.off + c.len.toNat

/-- The download-loop invariant, maintained by every dispatch, collection and
window-update step when request issuance never fails and read responses are
protocol conformant.  It ties the window bookkeeping to the local file
content: the written bytes are exactly the bytes below the libssh cursor,
below the file size and outside every active slot's remaining range, and they
carry the remote content. -/
structure GetInv (env : GetEnv) (st : GetState) : Prop where
  cellsLen : st.cells.length = 32
  nreqLe : st.nreq ≤ 32
  blenNonneg : 0 ≤ st.blen
  nbadZero : st.nbad = 0
  lenNonneg : ∀ i, i < st.nreq → 0 ≤ (getCell st i).len
  reqNonneg : ∀ i, i < st.nreq → 0 ≤ (getCell st i).req
  rangeSub : ∀ i, i < st.nreq →
      (getCell st i).off + (getCell st i).len.toNat ≤ st.cursor
  disj : activeDisjoint st
  localSome : st.werr = false → ∀ x, x < env.size → x < st.cursor →
      (∀ i, i < st.nreq → ¬ inRange (getCell st i) x) →
      st.localFile x = some (env.remote x)
  localNone : ∀ x, env.size ≤ x ∨ st.cursor ≤ x ∨
      (∃ i, i < st.nreq ∧ inRange (getCell st i) x) → st.localFile x = none
  reofCursor : st.reof = true → env.size ≤ st.cursor
  staleZero : st.reof = false → ∀ i, st.nreq ≤ i → i < 32 → getCell st i = zeroCell

/-! Concrete environments used to instantiate the download theorems. -/

/-- An empty remote file: every read response reports end of file. -/
def emptyFileEnv : GetEnv :=
  { size := 0, remote := fun _ => 0, beginOk := fun _ => true,
    poll := fun _ _ _ => 0, sinkOk := fun _ => true,
    lcloseOk := true, rcloseOk := true }

/-- A one-byte remote file whose server answers one byte at a time. -/
def oneByteEnv : GetEnv :=
  { size := 1, remote := fun _ => 7, beginOk := fun _ => true,
    poll := fun _ o l => if 1 ≤ o then 0 else if l ≤ 0 then SSH_AGAIN else 1,
    sinkOk := fun _ => true, lcloseOk := true, rcloseOk := true }

/-- A 300000-byte remote file whose server always answers with half of the
requested length (clamped to the bytes actually available). -/
def halfServerEnv : GetEnv :=
  { size := 300000, remote := fun _ => 0, beginOk := fun _ => true,
    poll := fun _ o l =>
      if 300000 ≤ o then 0
      else if l ≤ 0 then SSH_AGAIN
      else max 1 (min (l / 2) ((300000 - o : Nat) : Int)),
    sinkOk := fun _ => true, lcloseOk := true, rcloseOk := true }

/-- A protocol-conformant server (it only ever answers `SSH_AGAIN`) on which
the second request issuance fails. -/
def beginFailEnv : GetEnv :=
  { size := 10485760, remote := fun _ => 0,
    beginOk := fun n => decide (n ≠ 1),
    poll := fun _ _ _ => SSH_AGAIN, sinkOk := fun _ => true,
    lcloseOk := true, rcloseOk := true }

end Mexsftp

namespace Mexsftp

/-! ## Helper lemmas -/

theorem lsdir_loop_eq (es : List DirEntry) : ∀ acc : List DirEntry,
    lsdir_loop acc es = acc ++ es.filter (fun e => ! exclude_directory_entry e.name) := by
  induction es with
  | nil => intro acc; simp [lsdir_loop]
  | cons e rest ih =>
      intro acc
      by_cases he : exclude_directory_entry e.name
      · simp [lsdir_loop, he, ih]
      · simp [lsdir_loop, he, ih]

theorem glob_match_star_append (g u t : List Char) (h : glob_match g t = true) :
    glob_match ('*' :: g) (u ++ t) = true := by
  induction u with
  | nil =>
      cases t with
      | nil => simpa [glob_match] using h
      | cons c s => simp [glob_match, h]
  | cons a u ih => simp [glob_match, ih]

theorem globMatches_star_inv {g s : List Char} (h : GlobMatches ('*' :: g) s) :
    ∃ u t, s = u ++ t ∧ GlobMatches g t := by
  cases h with
  | star g u t ht => exact ⟨u, t, rfl, ht⟩
  | lit _ _ _ hns _ _ => exact absurd rfl hns

theorem glob_match_complete {g s : List Char} (h : GlobMatches g s) :
    glob_match g s = true := by
  induction h with
  | nil => simp [glob_match]
  | star g u t _ ih => exact glob_match_star_append g u t ih
  | one g c s _ ih => simpa [glob_match] using ih
  | lit g c s hns hnq _ ih =>
      rw [glob_match.eq_6 c g c s (fun he => hns he) (fun he => hnq he)]
      simp [ih]

theorem glob_match_sound : ∀ g s : List Char, glob_match g s = true → GlobMatches g s := by
  intro g s
  induction g, s using glob_match.induct with
  | case1 s =>
      intro h
      have : s = [] := by simpa [glob_match, List.isEmpty_iff] using h
      subst this; exact .nil
  | case2 g ih =>
      intro h
      have hg : glob_match g [] = true := by simpa [glob_match] using h
      exact GlobMatches.star g [] [] (ih hg)
  | case3 g c s ih1 ih2 =>
      intro h
      rcases (by simpa [glob_match] using h :
          glob_match g (c :: s) = true ∨ glob_match ('*' :: g) s = true) with h1 | h2
      · exact GlobMatches.star g [] (c :: s) (ih1 h1)
      · rcases globMatches_star_inv (ih2 h2) with ⟨u, t, rfl, ht⟩
        exact GlobMatches.star g (c :: u) t ht
  | case4 g c s ih =>
      intro h
      exact GlobMatches.one g c s (ih (by simpa [glob_match] using h))
  | case5 tail =>
      intro h; simp [glob_match] at h
  | case6 c g d s hns hnq ih =>
      intro h
      rw [glob_match.eq_6 c g d s hns hnq] at h
      rcases (by simpa using h : c = d ∧ glob_match g s = true) with ⟨rfl, hm⟩
      exact GlobMatches.lit g c s (fun he => hns he) (fun he => hnq he) (ih hm)
  | case7 hc tail hns hnq =>
      intro h
      rw [glob_match.eq_7 hc tail hns hnq] at h
      exact absurd h (by simp)

theorem glob_match_iff (g s : List Char) :
    glob_match g s = true ↔ GlobMatches g s :=
  ⟨glob_match_sound g s, glob_match_complete⟩

theorem glob_match_star_tails (g s : List Char) :
    glob_match ('*' :: g) s = (s.tails.any fun t => glob_match g t) := by
  induction s with
  | nil => simp [glob_match]
  | cons c s ih => simp [glob_match, ih]

/-! ## Claims -/

/-- C1: the claimed identity `resolve(p, d) = d + "/" + p` (one separator
regardless of a trailing separator of `d`, absolute `p` unchanged) holds for
every nonempty working directory `d`, but fails at `d = ""`, where
`prepend_pwd` inserts no separator — see the counterexample. -/
theorem c1_resolve_separator (p d : List Char) :
    (d ≠ [] → p.head? ≠ some '/' →
      expand_path p (some d)
        = (if d.getLast? = some '/' then d.dropLast else d) ++ '/' :: p)
    ∧ (p.head? = some '/' → expand_path p (some d) = p) := by
  constructor
  · intro hd hp
    simp only [expand_path, if_neg hp, prepend_pwd]
    by_cases hl : d.getLast? = some '/'
    · have h1 : ¬ (d ≠ [] ∧ d.getLast? ≠ some '/') := fun h => h.2 hl
      simp only [if_pos hl, if_neg h1, List.nil_append]
      rcases List.eq_nil_or_concat d with rfl | ⟨l, a, rfl⟩
      · exact absurd rfl hd
      · simp only [List.concat_eq_append] at hl ⊢
        rw [List.getLast?_concat] at hl
        injection hl with ha; subst ha
        rw [List.dropLast_concat]
        simp
    · have h1 : d ≠ [] ∧ d.getLast? ≠ some '/' := ⟨hd, hl⟩
      simp only [if_pos h1, if_neg hl]
      simp
  · intro hp
    simp [expand_path, hp]

/-- C1 counterexample: with the empty working directory, the relative path
`"x"` resolves to `"x"` itself, not to `"" + "/" + "x" = "/x"`. -/
theorem c1_resolve_counterexample :
    expand_path ['x'] (some []) = ['x'] ∧ (['x'] : List Char) ≠ ['/', 'x'] := by
  exact ⟨rfl, by decide⟩

/-- C1 witness: `resolve("x", "a") = "a/x"`. -/
theorem c1_resolve_witness :
    (['a'] : List Char) ≠ [] ∧ expand_path ['x'] (some ['a']) = ['a', '/', 'x'] := by
  refine ⟨by decide, ?_⟩
  have h := (c1_resolve_separator ['x'] ['a']).1 (by decide) (by decide)
  simpa using h

/-- C9: with the empty stored working directory, a relative path is returned
unchanged with no separator inserted, so the claimed formula `d + "/" + p`
fails at `d = ""`. -/
theorem c9_empty_pwd_no_separator (p : List Char) (hp : p.head? ≠ some '/') :
    prepend_pwd p (some []) = p ∧ expand_path p (some []) = p ∧
      expand_path p (some []) ≠ '/' :: p := by
  have h1 : prepend_pwd p (some []) = p := by simp [prepend_pwd]
  have h2 : expand_path p (some []) = p := by
    simp [expand_path, if_neg hp, h1]
  refine ⟨h1, h2, ?_⟩
  rw [h2]
  intro h
  have := congrArg List.length h
  simp at this

/-- C9 witness: at `p = "x"`. -/
theorem c9_empty_pwd_witness :
    (['x'] : List Char).head? ≠ some '/' ∧ expand_path ['x'] (some []) = ['x'] :=
  ⟨by decide, (c9_empty_pwd_no_separator ['x'] (by decide)).2.1⟩

/-- C2: `cwd_sftp_connection` replaces the stored working directory only
when path expansion, canonicalization and stat all succeed and the result is
a directory; every failing branch (including the "Not a directory" one, which
reports `SSH_ERROR`) leaves the connection exactly as it was. -/
theorem c2_cwd_preserves_pwd (env : CwdEnv) (conn : SftpConn)
    (path : Option (List Char)) :
    ((cwd_sftp_connection env conn path).2.pwd ≠ conn.pwd →
      (cwd_sftp_connection env conn path).1.1 = SSH_OK ∧
      ∃ p cwd atts, path = some p ∧
        env.canonicalize (expand_path p conn.pwd) = some cwd ∧
        env.statAttr cwd = some atts ∧
        atts.type = SSH_FILEXFER_TYPE_DIRECTORY ∧
        (cwd_sftp_connection env conn path).2.pwd = some cwd)
    ∧ ((cwd_sftp_connection env conn path).1.2 = "Not a directory" →
        (cwd_sftp_connection env conn path).1.1 = SSH_ERROR ∧
        (cwd_sftp_connection env conn path).2 = conn)
    ∧ ((cwd_sftp_connection env conn path).1.1 ≠ SSH_OK →
        (cwd_sftp_connection env conn path).2 = conn) := by
  by_cases hopen : conn.sftpOpen
  case neg => simp [cwd_sftp_connection, hopen, SSH_FX_NO_CONNECTION, SSH_OK]
  case pos =>
    cases path with
    | none => simp [cwd_sftp_connection, hopen, SSH_ERROR, SSH_OK]
    | some p =>
        cases hcan : env.canonicalize (expand_path p conn.pwd) with
        | none => simp [cwd_sftp_connection, hopen, hcan, SSH_OK]
        | some cwd =>
            cases hstat : env.statAttr cwd with
            | none => simp [cwd_sftp_connection, hopen, hcan, hstat, SSH_OK]
            | some atts =>
                by_cases htype : atts.type = SSH_FILEXFER_TYPE_DIRECTORY
                · simp [cwd_sftp_connection, hopen, hcan, hstat, htype,
                    SSH_OK, SSH_ERROR]
                · simp [cwd_sftp_connection, hopen, hcan, hstat, htype,
                    SSH_OK, SSH_ERROR]

/-- C2 witness: a server whose stat reports a regular file makes
`cwd_sftp_connection` fail with "Not a directory" and keep the prior
working directory (`some "/w"`). -/
theorem c2_cwd_witness :
    (cwd_sftp_connection
        { canonicalize := fun p => some p, statAttr := fun _ => some { type := 1 },
          errorCode := 0 }
        { sftpOpen := true, pwd := some ['/', 'w'] } (some ['x'])).2
      = { sftpOpen := true, pwd := some ['/', 'w'] } := by
  refine ((c2_cwd_preserves_pwd _ _ _).2.1 ?_).2
  rfl

/-- C3: a successful `lsdir_sftp_connection` returns exactly the server's
entries whose name does not begin with a dot, in server enumeration order
(the result is the dot-filtered sublist of the enumeration). -/
theorem c3_lsdir_filters_dotfiles (entries : List DirEntry)
    (dirEof closeOk : Bool) (l : List DirEntry)
    (h : lsdir_sftp_connection entries dirEof closeOk = .ok l) :
    l = entries.filter (fun e => ! exclude_directory_entry e.name)
    ∧ (∀ e ∈ l, ∀ nm, e.name = some nm → nm.head? ≠ some '.')
    ∧ l.Sublist entries := by
  have hl : l = entries.filter (fun e => ! exclude_directory_entry e.name) := by
    unfold lsdir_sftp_connection at h
    by_cases h1 : dirEof
    · by_cases h2 : closeOk
      · simp only [h1, h2, not_true_eq_false, if_false] at h
        cases h
        exact lsdir_loop_eq entries []
      · simp [h1, h2] at h
    · simp [h1] at h
  subst hl
  refine ⟨rfl, ?_, List.filter_sublist _⟩
  intro e he nm hnm hdot
  rw [List.mem_filter] at he
  have := he.2
  rw [hnm] at this
  simp [exclude_directory_entry, hdot] at this

/-- C3 witness: the server emits `.`, `..`, `a`, `.h`; the returned list is
exactly `[a]`. -/
theorem c3_lsdir_witness :
    lsdir_sftp_connection
        [⟨some ['.']⟩, ⟨some ['.', '.']⟩, ⟨some ['a']⟩, ⟨some ['.', 'h']⟩]
        true true = .ok [⟨some ['a']⟩]
    ∧ ∀ e ∈ [(⟨some ['a']⟩ : DirEntry)], ∀ nm, e.name = some nm →
        nm.head? ≠ some '.' := by
  have hrun : lsdir_sftp_connection
      [⟨some ['.']⟩, ⟨some ['.', '.']⟩, ⟨some ['a']⟩, ⟨some ['.', 'h']⟩]
      true true = .ok [⟨some ['a']⟩] := by
    simp [lsdir_sftp_connection, lsdir_loop, exclude_directory_entry]
  exact ⟨hrun, (c3_lsdir_filters_dotfiles _ _ _ _ hrun).2.1⟩

/-- C4: `glob_name_match` decides the specification's wildcard relation
(`*` any run including empty, `?` exactly one character, literals
themselves, whole pattern against whole name) restricted by the rule that a
pattern with a leading `*` or `?` never matches a name with a leading dot. -/
theorem c4_glob_name_match_decides (g n : List Char) :
    glob_name_match g n = true ↔
      (GlobMatches g n ∧ ¬ leadingWildcardDotfile g n) := by
  unfold glob_name_match leadingWildcardDotfile
  by_cases h1 : g.head? = some '*' ∧ n.head? = some '.'
  · simp [h1]
  · by_cases h2 : g.head? = some '?' ∧ n.head? = some '.'
    · simp only [if_neg h1, if_pos h2]
      simp [h2.1, h2.2]
    · simp only [if_neg h1, if_neg h2]
      rw [glob_match_iff]
      constructor
      · intro hm
        refine ⟨hm, fun hlw => ?_⟩
        rcases hlw with ⟨hg | hg, hn⟩
        · exact h1 ⟨hg, hn⟩
        · exact h2 ⟨hg, hn⟩
      · intro hm; exact hm.1

/-- C4 witness: `"a*"` matches `"ab"` under the spec relation. -/
theorem c4_glob_name_match_witness :
    GlobMatches ['a', '*'] ['a', 'b'] ∧
      ¬ leadingWildcardDotfile ['a', '*'] ['a', 'b'] := by
  refine (c4_glob_name_match_decides ['a', '*'] ['a', 'b']).mp ?_
  rw [glob_name_match]
  norm_num
  rw [glob_match.eq_6 'a' ['*'] 'a' ['b'] (by decide) (by decide)]
  simp [glob_match]

/-- C10: the matcher is a total function of its two finite arguments: the
well-founded embedding satisfies the C recursion exactly, and the `*`
backtracking loop is the finite disjunction over the suffixes of the
remaining string (shortest skip first). -/
theorem c10_glob_match_total (g s : List Char) (c d : Char) :
    (glob_match [] s = s.isEmpty)
    ∧ (glob_match ('*' :: g) s = (s.tails.any fun t => glob_match g t))
    ∧ (glob_match ('?' :: g) (d :: s) = glob_match g s)
    ∧ (glob_match ('?' :: g) [] = false)
    ∧ (c ≠ '*' → c ≠ '?' →
        glob_match (c :: g) (d :: s) = (decide (c = d) && glob_match g s))
    ∧ (c ≠ '*' → c ≠ '?' → glob_match (c :: g) [] = false) := by
  refine ⟨by simp [glob_match], glob_match_star_tails g s, by simp [glob_match],
    by simp [glob_match], fun h1 h2 => ?_, fun h1 h2 => ?_⟩
  · exact glob_match.eq_6 c g d s (fun he => h1 he) (fun he => h2 he)
  · exact glob_match.eq_7 c g (fun he => h1 he) (fun he => h2 he)

/-- C10 witness: the literal equation at `c = d = 'a'`, `g = []`,
`s = []`. -/
theorem c10_glob_match_total_witness :
    glob_match ['a'] ['a'] = (decide ('a' = 'a') && glob_match [] []) :=
  (c10_glob_match_total [] [] 'a' 'a').2.2.2.2.1 (by decide) (by decide)

/-! ## Upload loop lemmas -/

theorem putfile_rerr_false (env : PutEnv) (k : Nat) :
    decide ((env.readLen k : Int) < 0) = false := by
  simp

theorem putfile_loop_step_good (env : PutEnv) (fuel k : Nat) (ws : List Int)
    (hpos : 0 < env.readLen k)
    (hexact : env.writeRes k = (env.readLen k : Int)) :
    putfile_loop env (fuel + 1) k false false ws
      = putfile_loop env fuel (k + 1) false false (ws ++ [env.writeRes k]) := by
  have hcond : (0 : Int) < (env.readLen k : Int) := by exact_mod_cast hpos
  have hwerr : decide (env.writeRes k - (env.readLen k : Int) ≠ 0) = false := by
    simp [hexact]
  rw [putfile_loop, if_pos ⟨rfl, rfl, hcond⟩, hwerr, putfile_rerr_false]

theorem putfile_loop_stop_zero (env : PutEnv) (fuel k : Nat) (ws : List Int)
    (hz : env.readLen k = 0) :
    putfile_loop env (fuel + 1) k false false ws = some (false, false, ws) := by
  rw [putfile_loop, if_neg]
  intro hcond
  rw [hz] at hcond
  exact absurd hcond.2.2 (by simp)

theorem putfile_loop_stop_short (env : PutEnv) (fuel k : Nat) (ws : List Int)
    (hpos : 0 < env.readLen k)
    (hshort : env.writeRes k ≠ (env.readLen k : Int)) :
    putfile_loop env (fuel + 2) k false false ws
      = some (false, true, ws ++ [env.writeRes k]) := by
  have hcond : (0 : Int) < (env.readLen k : Int) := by exact_mod_cast hpos
  have hwerr : decide (env.writeRes k - (env.readLen k : Int) ≠ 0) = true := by
    simp [sub_eq_zero, hshort]
  rw [putfile_loop, if_pos ⟨rfl, rfl, hcond⟩, hwerr, putfile_rerr_false]
  rw [putfile_loop, if_neg]
  intro hcond2
  exact absurd hcond2.2.1 (by simp)

theorem putfile_loop_good_run (env : PutEnv) (k : Nat) :
    ∀ (fuel j : Nat) (ws : List Int),
    (∀ i, i < k → 0 < env.readLen (j + i) ∧
        env.writeRes (j + i) = (env.readLen (j + i) : Int)) →
    putfile_loop env (fuel + k) j false false ws
      = putfile_loop env fuel (j + k) false false
          (ws ++ (List.range k).map fun i => env.writeRes (j + i)) := by
  induction k with
  | zero => intro fuel j ws _; simp
  | succ k ih =>
      intro fuel j ws h
      have h0 := h 0 (Nat.succ_pos k)
      rw [Nat.add_zero] at h0
      have hstep := putfile_loop_step_good env (fuel + k) j ws h0.1 h0.2
      have : fuel + (k + 1) = fuel + k + 1 := by omega
      rw [this, hstep, ih fuel (j + 1) _ (fun i hi => by
        have := h (i + 1) (by omega)
        rwa [show j + (i + 1) = j + 1 + i by omega] at this)]
      have hfun : ((List.range k).map fun i => env.writeRes (j + 1 + i))
          = (List.range k).map ((fun i => env.writeRes (j + i)) ∘ Nat.succ) := by
        apply List.map_congr_left
        intro i _
        simp only [Function.comp]
        congr 1
        omega
      have hlist : ws ++ [env.writeRes j] ++
            ((List.range k).map fun i => env.writeRes (j + 1 + i))
          = ws ++ (List.range (k + 1)).map fun i => env.writeRes (j + i) := by
        rw [hfun, List.range_succ_eq_map]
        simp [List.map_map]
      rw [show j + (k + 1) = j + 1 + k by omega, hlist]

/-- C8: in `putfile_sftp_connection`, if the chunks before `k` are read with
positive length and written in full, then a short remote write of chunk `k`
makes the transfer abort with the remote-write error right after that chunk:
exactly `k + 1` chunks were ever written, with no retry; whereas a zero-length
local read at chunk `k` terminates the loop as successful completion with
exactly `k` chunks written. -/
theorem c8_putfile_short_write_aborts (env : PutEnv) (k fuel : Nat) :
    ((∀ i, i < k → 0 < env.readLen i ∧ env.writeRes i = (env.readLen i : Int)) →
      0 < env.readLen k → env.writeRes k ≠ (env.readLen k : Int) →
      putfile_sftp_connection env (fuel + k + 2)
        = some (.error "remote write error",
            (List.range (k + 1)).map fun i => env.writeRes i))
    ∧ ((∀ i, i < k → 0 < env.readLen i ∧ env.writeRes i = (env.readLen i : Int)) →
      env.readLen k = 0 → env.rcloseOk = true → env.lcloseOk = true →
      putfile_sftp_connection env (fuel + k + 1)
        = some (.ok (), (List.range k).map fun i => env.writeRes i)) := by
  constructor
  · intro hgood hpos hshort
    unfold putfile_sftp_connection
    rw [putfile_rerr_false]
    rw [show fuel + k + 2 = (fuel + 2) + k by omega]
    rw [putfile_loop_good_run env k (fuel + 2) 0 [] (fun i hi => by
      simpa using hgood i hi)]
    rw [Nat.zero_add, putfile_loop_stop_short env fuel k _ hpos hshort]
    simp [List.range_succ]
  · intro hgood hz hrc hlc
    unfold putfile_sftp_connection
    rw [putfile_rerr_false]
    rw [show fuel + k + 1 = (fuel + 1) + k by omega]
    rw [putfile_loop_good_run env k (fuel + 1) 0 [] (fun i hi => by
      simpa using hgood i hi)]
    rw [Nat.zero_add, putfile_loop_stop_zero env fuel k _ hz]
    simp [hrc, hlc]

/-- C8 witness: one 3-byte chunk written in full, then a zero read: the
upload succeeds with exactly one chunk written. -/
theorem c8_putfile_witness :
    putfile_sftp_connection
        { readLen := fun i => if i = 0 then 3 else 0,
          writeRes := fun _ => 3, rcloseOk := true, lcloseOk := true } 2
      = some (.ok (), [3]) := by
  have h := (c8_putfile_short_write_aborts
      { readLen := fun i => if i = 0 then 3 else 0,
        writeRes := fun _ => 3, rcloseOk := true, lcloseOk := true } 1 0).2
      (fun i hi => by interval_cases i <;> simp) (by simp) rfl rfl
  simpa using h

/-! ## Download machine lemmas -/

theorem dispatch_one_blen (env : GetEnv) (st : GetState) (i : Nat) :
    (dispatch_one env st i).blen = st.blen := by
  simp only [dispatch_one]
  split
  · split
    · rfl
    · split
      · rfl
      · rfl
  · rfl

theorem collect_one_blen (env : GetEnv) (st : GetState) (i : Nat) :
    (collect_one env st i).blen = st.blen := by
  simp only [collect_one]
  split
  · split
    · rfl
    · split
      · rfl
      · split
        · rfl
        · rfl
  · rfl

theorem dispatch_from_blen (env : GetEnv) : ∀ (n : Nat) (st : GetState),
    (dispatch_from env st n).blen = st.blen := by
  intro n
  induction n with
  | zero => intro st; rfl
  | succ n ih =>
      intro st
      simp only [dispatch_from]
      split
      · rfl
      · rw [ih, dispatch_one_blen]

theorem collect_from_blen (env : GetEnv) : ∀ (n : Nat) (st : GetState),
    (collect_from env st n).blen = st.blen := by
  intro n
  induction n with
  | zero => intro st; rfl
  | succ n ih =>
      intro st
      simp only [collect_from]
      split
      · rfl
      · rw [ih, collect_one_blen]

theorem getfile_update_reof (st : GetState) : (getfile_update st).reof = st.reof := rfl

theorem getfile_update_nbad (st : GetState) : (getfile_update st).nbad = st.nbad := rfl

theorem getfile_update_nreq_zero (st : GetState)
    (h1 : (getfile_update st).nreq = 0) (h2 : st.nbad = 0) :
    st.reof = true := by
  simp only [getfile_update] at h1
  by_cases hg : st.nbad > 0 ∨ st.reof = true ∨ st.nreq ≥ 32
  · rw [if_pos hg] at h1
    rcases hg with hb | hr | hn
    · rw [h2] at hb; exact absurd hb (by norm_num)
    · exact hr
    · omega
  · rw [if_neg hg] at h1; omega

/-- A state with no live slot and a clean bad-count reached the window-drain
exit, which only happens after end of file was observed. -/
theorem getfile_steps_drained_reof (env : GetEnv) : ∀ fuel : Nat,
    (getfile_steps env fuel).nreq = 0 → (getfile_steps env fuel).nbad = 0 →
    (getfile_steps env fuel).reof = true := by
  intro fuel
  induction fuel with
  | zero => intro h _; simp [getfile_steps, getfile_init] at h
  | succ k ih =>
      simp only [getfile_steps, getfile_step]
      by_cases hc : getfile_cond (getfile_steps env k)
      · rw [if_pos hc]
        simp only [getfile_cycle]
        intro h1 h2
        rw [getfile_update_nbad] at h2
        rw [getfile_update_reof]
        exact getfile_update_nreq_zero _ h1 h2
      · rw [if_neg hc]; exact ih

theorem getfile_finalize_ok (env : GetEnv) (st : GetState)
    (h : getfile_finalize env st = .ok ()) :
    st.werr = false ∧ st.rerr = false ∧ ¬ st.nbad > 0 := by
  unfold getfile_finalize at h
  by_cases hw : st.werr = true
  · simp [hw] at h
  · by_cases hr : st.rerr = true
    · simp [hw, hr] at h
    · by_cases hb : st.nbad > 0
      · simp [hw, hr, hb] at h
      · exact ⟨by simpa using hw, by simpa using hr, hb⟩

theorem getfile_finalize_err (env : GetEnv) (st : GetState)
    (herr : st.rerr = true ∨ st.werr = true) :
    ∃ e, getfile_finalize env st = .error e := by
  unfold getfile_finalize
  by_cases h1 : st.werr = true
  · exact ⟨"local write error", by simp [h1]⟩
  · rcases herr with hr | hw2
    · exact ⟨"remote read error", by simp [h1, hr]⟩
    · exact absurd hw2 h1

theorem getfile_cond_false (st : GetState) (hc : getfile_cond st = false)
    (hw : st.werr = false) (hr : st.rerr = false) :
    (st.nreq : Int) ≤ st.nbad := by
  simp only [getfile_cond, hw, hr, Bool.not_false, Bool.and_true,
    decide_eq_false_iff_not, not_lt] at hc
  exact hc

/-- C5: `getfile_sftp_connection` reports success only when end of file was
observed, every request slot has been drained (remaining length zero — in
fact the whole window has been retired), and the bad-issuance count is zero;
any state in which a genuine read error (a response that is neither data, nor
end of file, nor `SSH_AGAIN`) or a local sink-write failure was recorded
yields an error result, never success. -/
theorem c5_download_success_conditions (env : GetEnv) (fuel : Nat)
    (res : Except String Unit) (final : GetState)
    (h : getfile_run env fuel = some (res, final)) :
    (res = .ok () →
      final.reof = true ∧ final.nbad = 0 ∧ final.nreq = 0 ∧
      (∀ i, i < final.nreq → (getCell final i).len = 0))
    ∧ ((final.rerr = true ∨ final.werr = true) → ∃ e, res = .error e) := by
  unfold getfile_run at h
  by_cases hc : getfile_cond (getfile_steps env fuel)
  · rw [if_pos hc] at h; exact absurd h (by simp)
  · rw [if_neg hc] at h
    rw [Option.some_inj, Prod.mk.injEq] at h
    obtain ⟨hres, hfin⟩ := h
    constructor
    · intro hok
      rw [hok] at hres
      obtain ⟨hw, hr, hnb⟩ := getfile_finalize_ok env _ hres
      have hle := getfile_cond_false _ (by simpa using hc) hw hr
      have hnb0 : (getfile_steps env fuel).nbad = 0 := by omega
      have hnr0 : (getfile_steps env fuel).nreq = 0 := by omega
      have hreof := getfile_steps_drained_reof env fuel hnr0 hnb0
      subst hfin
      exact ⟨hreof, hnb0, hnr0, fun i hi => by omega⟩
    · intro herr
      rw [← hfin] at herr
      obtain ⟨e, he⟩ := getfile_finalize_err env _ herr
      exact ⟨e, by rw [← hres, he]⟩

/-- C5 witness: the empty-file download: the first response reports end of
file and the run succeeds with the window drained. -/
theorem c5_download_witness :
    (getfile_steps emptyFileEnv 2).reof = true
    ∧ (getfile_steps emptyFileEnv 2).nbad = 0
    ∧ (getfile_steps emptyFileEnv 2).nreq = 0 := by
  have h := (c5_download_success_conditions emptyFileEnv 2 (.ok ())
      (getfile_steps emptyFileEnv 2) rfl).1 rfl
  exact ⟨h.1, h.2.1, h.2.2.1⟩

theorem getfile_blen_pow (env : GetEnv) : ∀ k : Nat,
    ∃ m, m ≤ 10 ∧ (getfile_steps env k).blen = 2 ^ (9 + m) := by
  intro k
  induction k with
  | zero => exact ⟨10, le_refl 10, by norm_num [getfile_steps, getfile_init]⟩
  | succ k ih =>
      obtain ⟨m, hm, hb⟩ := ih
      simp only [getfile_steps, getfile_step]
      by_cases hc : getfile_cond (getfile_steps env k)
      · rw [if_pos hc]
        simp only [getfile_cycle, getfile_update]
        rw [collect_from_blen, dispatch_from_blen, hb]
        split
        next h =>
          cases m with
          | zero =>
              exfalso
              have := h.2.2
              norm_num at this
          | succ m2 =>
              refine ⟨m2, by omega, ?_⟩
              rw [show 9 + (m2 + 1) = (9 + m2) + 1 by omega, pow_succ]
              rw [Int.mul_ediv_cancel _ (by norm_num)]
        next h => exact ⟨m, hm, rfl⟩
      · rw [if_neg hc]; exact ⟨m, hm, hb⟩

theorem getfile_blen_min (env : GetEnv) (k : Nat) :
    (512 : Int) ≤ (getfile_steps env k).blen := by
  obtain ⟨m, _, hb⟩ := getfile_blen_pow env k
  rw [hb]
  calc (512 : Int) = 2 ^ 9 := by norm_num
    _ ≤ 2 ^ (9 + m) := pow_le_pow_right (by norm_num) (by omega)

theorem getfile_blen_mono (env : GetEnv) (k : Nat) :
    (getfile_steps env (k + 1)).blen ≤ (getfile_steps env k).blen := by
  obtain ⟨m, _, hb⟩ := getfile_blen_pow env k
  have hpos : (0 : Int) ≤ (getfile_steps env k).blen := by
    rw [hb]; positivity
  simp only [getfile_steps, getfile_step]
  by_cases hc : getfile_cond (getfile_steps env k)
  · rw [if_pos hc]
    simp only [getfile_cycle, getfile_update]
    rw [collect_from_blen, dispatch_from_blen]
    split
    next h => exact le_trans (Int.ediv_le_self 2 hpos) (le_refl _)
    next h => exact le_refl _
  · rw [if_neg hc]

theorem halfServerEnv_conform : GetEnvConform halfServerEnv := by
  intro c o l
  simp only [GetEnvConform, halfServerEnv]
  constructor
  · intro h0
    by_cases h1 : 300000 ≤ o
    · exact h1
    · exfalso
      rw [if_neg (by omega : ¬ (300000:Nat) ≤ o)] at h0
      by_cases h2 : l ≤ 0
      · rw [if_pos h2] at h0; norm_num [SSH_AGAIN] at h0
      · rw [if_neg h2] at h0
        have : (1:Int) ≤ max 1 (min (l / 2) ((300000 - o : Nat) : Int)) :=
          le_max_left _ _
        omega
  · intro hpos
    by_cases h1 : 300000 ≤ o
    · rw [if_pos h1] at hpos; omega
    · rw [if_neg h1] at hpos ⊢
      by_cases h2 : l ≤ 0
      · rw [if_pos h2] at hpos; norm_num [SSH_AGAIN] at hpos
      · rw [if_neg h2] at hpos ⊢
        have hl1 : (1:Int) ≤ l := by omega
        have hdiv : l / 2 ≤ l := Int.ediv_le_self 2 (by omega)
        have havail : (1:Int) ≤ ((300000 - o : Nat) : Int) := by omega
        constructor
        · exact max_le hl1 (le_trans (min_le_left _ _) hdiv)
        · have hle : max 1 (min (l / 2) ((300000 - o : Nat) : Int))
              ≤ ((300000 - o : Nat) : Int) :=
            max_le havail (min_le_right _ _)
          omega

/-- C6 (amended): the chunk size for newly created slots is monotonically
nonincreasing and never drops below the 512-byte minimum, in every download;
but against the server that always returns half of the requested length the
transfer completes with the chunk size frozen at 262144 — half of the maximum
— not driven down to 512, because the recorded short-response sample `rlen`
(the largest short response seen) stops the halving as soon as
`blen ≤ rlen`. -/
theorem c6_chunk_size_monotone_above_min (env : GetEnv) (k : Nat) :
    (getfile_steps env (k + 1)).blen ≤ (getfile_steps env k).blen
    ∧ (512 : Int) ≤ (getfile_steps env k).blen
    ∧ getfile_run halfServerEnv 5
        = some (.ok (), getfile_steps halfServerEnv 5)
    ∧ (getfile_steps halfServerEnv 5).blen = 262144 :=
  ⟨getfile_blen_mono env k, getfile_blen_min env k, rfl, rfl⟩

/-- C6 counterexample: against the protocol-conformant always-half server the
download completes successfully, yet the chunk size ends (and therefore, by
monotonicity, stays throughout) at 262144, never reaching the 512-byte
minimum the claim asserts. -/
theorem c6_chunk_size_counterexample :
    getfile_run halfServerEnv 5 = some (.ok (), getfile_steps halfServerEnv 5)
    ∧ (getfile_steps halfServerEnv 5).blen = 262144
    ∧ (∀ k, k ≤ 5 → 262144 ≤ (getfile_steps halfServerEnv k).blen)
    ∧ GetEnvConform halfServerEnv := by
  refine ⟨rfl, rfl, by decide, halfServerEnv_conform⟩

/-! ## Download window invariant -/

theorem getD_set_eq (cells : List GetCell) (i : Nat) (c : GetCell)
    (h : i < cells.length) : (cells.set i c).getD i zeroCell = c := by
  simp [List.getD, List.getElem?_set_eq_of_lt, h]

theorem getD_set_ne (cells : List GetCell) (i j : Nat) (c : GetCell)
    (h : i ≠ j) : (cells.set i c).getD j zeroCell = cells.getD j zeroCell := by
  simp [List.getD, List.getElem?_set_ne h]

theorem zeroCell_disjoint_left (d : GetCell) : rangesDisjoint zeroCell d :=
  Or.inl (by simp [zeroCell])

theorem zeroCell_disjoint_right (c : GetCell) : rangesDisjoint c zeroCell :=
  Or.inr (by simp [zeroCell])

theorem rangesDisjoint_symm {c d : GetCell} (h : rangesDisjoint c d) :
    rangesDisjoint d c := h.elim Or.inr Or.inl

theorem not_inRange_zeroCell (x : Nat) : ¬ inRange zeroCell x := by
  simp [inRange, zeroCell]

theorem getInv_init (env : GetEnv) : GetInv env getfile_init := by
  refine ⟨by simp [getfile_init], by simp [getfile_init], by norm_num [getfile_init],
    rfl, ?_, ?_, ?_, ?_, ?_, ?_, ?_, ?_⟩
  · intro i hi
    simp only [getfile_init] at hi ⊢
    interval_cases i
    simp [getCell, zeroCell]
  · intro i hi
    simp only [getfile_init] at hi ⊢
    interval_cases i
    simp [getCell, zeroCell]
  · intro i hi
    simp only [getfile_init] at hi ⊢
    interval_cases i
    simp [getCell, zeroCell]
  · intro i hi j hj hne
    simp only [getfile_init] at hi hj
    interval_cases i <;> interval_cases j <;> simp_all
  · intro _ x _ hx
    simp only [getfile_init] at hx
    omega
  · intro x _
    simp [getfile_init]
  · intro h
    simp [getfile_init] at h
  · intro _ i _ hi2
    simp only [getfile_init, getCell]
    rw [List.getD_eq_getElem?_getD, List.getElem?_replicate]
    simp [hi2]

theorem dispatch_one_inv (env : GetEnv) (hbegin : GetEnvBeginOk env)
    (st : GetState) (i : Nat) (hi : i < st.nreq) (h : GetInv env st) :
    GetInv env (dispatch_one env st i)
    ∧ i ≤ (dispatch_one env st i).nreq
    ∧ (dispatch_one env st i).nreq ≤ st.nreq
    ∧ (dispatch_one env st i).reof = st.reof
    ∧ (dispatch_one env st i).werr = st.werr
    ∧ (dispatch_one env st i).rerr = st.rerr
    ∧ st.cursor ≤ (dispatch_one env st i).cursor := by
  have hi32 : i < st.cells.length := by
    have := h.nreqLe; rw [h.cellsLen]; omega
  have hreq0 : 0 ≤ (getCell st i).req := h.reqNonneg i hi
  have hbok : env.beginOk st.beginCnt = true := hbegin st.beginCnt
  have hcast : ¬ ((st.beginCnt : Int) < 0) := by omega
  simp only [dispatch_one, hbok, if_true, if_neg hcast,
    if_neg (not_lt.mpr hreq0), add_zero, sub_zero]
  by_cases h1 : (getCell st i).req < 0 ∨ (getCell st i).rsp ≠ SSH_AGAIN
  case neg =>
    rw [if_neg h1]
    exact ⟨h, le_of_lt hi, le_refl _, rfl, rfl, rfl, le_refl _⟩
  case pos =>
    rw [if_pos h1]
    by_cases h2 : (getCell st i).len ≠ 0
    · -- resend: same byte range, fresh nonnegative identifier
      rw [if_pos h2]
      refine ⟨⟨?_, h.nreqLe, h.blenNonneg, h.nbadZero, ?_, ?_, ?_, ?_, ?_, ?_,
        h.reofCursor, ?_⟩, le_of_lt hi, le_refl _, rfl, rfl, rfl, le_refl _⟩
      · simpa using h.cellsLen
      · intro j hj
        simp only [getCell]
        by_cases hji : j = i
        · subst hji
          rw [getD_set_eq _ _ _ hi32]
          exact h.lenNonneg j hj
        · rw [getD_set_ne _ _ _ _ (fun he => hji he.symm)]
          exact h.lenNonneg j hj
      · intro j hj
        simp only [getCell]
        by_cases hji : j = i
        · subst hji
          rw [getD_set_eq _ _ _ hi32]
          exact Int.natCast_nonneg _
        · rw [getD_set_ne _ _ _ _ (fun he => hji he.symm)]
          exact h.reqNonneg j hj
      · intro j hj
        simp only [getCell]
        by_cases hji : j = i
        · subst hji
          rw [getD_set_eq _ _ _ hi32]
          exact h.rangeSub j hj
        · rw [getD_set_ne _ _ _ _ (fun he => hji he.symm)]
          exact h.rangeSub j hj
      · intro j hj k hk hne
        simp only [getCell]
        by_cases hji : j = i <;> by_cases hki : k = i
        · exact absurd (hji.trans hki.symm) hne
        · subst hji
          rw [getD_set_eq _ _ _ hi32,
            getD_set_ne _ _ _ _ (fun he => hki he.symm)]
          exact h.disj j hj k hk hne
        · subst hki
          rw [getD_set_eq _ _ _ hi32,
            getD_set_ne _ _ _ _ (fun he => hji he.symm)]
          exact h.disj j hj k hk hne
        · rw [getD_set_ne _ _ _ _ (fun he => hji he.symm),
            getD_set_ne _ _ _ _ (fun he => hki he.symm)]
          exact h.disj j hj k hk hne
      · intro hw x hx1 hx2 hall
        refine h.localSome hw x hx1 hx2 ?_
        intro j hj
        have hthis := hall j hj
        simp only [getCell] at hthis
        by_cases hji : j = i
        · subst hji
          rwa [getD_set_eq _ _ _ hi32] at hthis
        · rwa [getD_set_ne _ _ _ _ (fun he => hji he.symm)] at hthis
      · intro x hx
        refine h.localNone x ?_
        rcases hx with hx | hx | ⟨j, hj, hr⟩
        · exact Or.inl hx
        · exact Or.inr (Or.inl hx)
        · simp only [getCell] at hr
          refine Or.inr (Or.inr ⟨j, hj, ?_⟩)
          by_cases hji : j = i
          · subst hji
            rwa [getD_set_eq _ _ _ hi32] at hr
          · rwa [getD_set_ne _ _ _ _ (fun he => hji he.symm)] at hr
      · intro hre j hj1 hj2
        dsimp only at hre hj1 ⊢
        have hji : i ≠ j := by omega
        simp only [getCell]
        rw [getD_set_ne _ _ _ _ hji]
        exact h.staleZero hre j hj1 hj2
    · rw [if_neg h2]
      push_neg at h2
      by_cases h3 : st.reof = true ∨ st.nbad ≠ 0
      · -- retire the drained slot: the last live cell moves into its place
        rw [if_pos h3]
        have hreof : st.reof = true := by
          rcases h3 with h3 | h3
          · exact h3
          · exact absurd h.nbadZero h3
        have hn1 : 1 ≤ st.nreq := by omega
        have hlast : st.nreq - 1 < st.nreq := by omega
        refine ⟨⟨?_, Nat.le_trans (Nat.sub_le _ _) h.nreqLe, h.blenNonneg,
          h.nbadZero, ?_, ?_, ?_, ?_, ?_, ?_, h.reofCursor, ?_⟩,
          Nat.le_pred_of_lt hi, Nat.sub_le _ _, rfl, rfl, rfl, le_refl _⟩
        · simpa using h.cellsLen
        · intro j hj
          dsimp only at hj ⊢
          simp only [getCell]
          by_cases hji : j = i
          · subst hji
            rw [getD_set_eq _ _ _ hi32]
            exact h.lenNonneg _ hlast
          · rw [getD_set_ne _ _ _ _ (fun he => hji he.symm)]
            exact h.lenNonneg j (by omega)
        · intro j hj
          dsimp only at hj ⊢
          simp only [getCell]
          by_cases hji : j = i
          · subst hji
            rw [getD_set_eq _ _ _ hi32]
            exact h.reqNonneg _ hlast
          · rw [getD_set_ne _ _ _ _ (fun he => hji he.symm)]
            exact h.reqNonneg j (by omega)
        · intro j hj
          dsimp only at hj ⊢
          simp only [getCell]
          by_cases hji : j = i
          · subst hji
            rw [getD_set_eq _ _ _ hi32]
            exact h.rangeSub _ hlast
          · rw [getD_set_ne _ _ _ _ (fun he => hji he.symm)]
            exact h.rangeSub j (by omega)
        · intro j hj k hk hne
          dsimp only at hj hk ⊢
          simp only [getCell]
          by_cases hji : j = i <;> by_cases hki : k = i
          · exact absurd (hji.trans hki.symm) hne
          · subst hji
            rw [getD_set_eq _ _ _ hi32,
              getD_set_ne _ _ _ _ (fun he => hki he.symm)]
            exact h.disj _ hlast k (by omega) (by omega)
          · subst hki
            rw [getD_set_eq _ _ _ hi32,
              getD_set_ne _ _ _ _ (fun he => hji he.symm)]
            exact h.disj j (by omega) _ hlast (by omega)
          · rw [getD_set_ne _ _ _ _ (fun he => hji he.symm),
              getD_set_ne _ _ _ _ (fun he => hki he.symm)]
            exact h.disj j (by omega) k (by omega) hne
        · intro hw x hx1 hx2 hall
          refine h.localSome hw x hx1 hx2 ?_
          intro j hj
          by_cases hji : j = i
          · subst hji
            intro hr
            rcases hr with ⟨hr1, hr2⟩
            rw [h2] at hr2
            simp at hr2
            omega
          · by_cases hjn : j = st.nreq - 1
            · subst hjn
              have hi2 : i < st.nreq - 1 := by omega
              have hthis := hall i hi2
              simp only [getCell] at hthis
              rwa [getD_set_eq _ _ _ hi32] at hthis
            · have hj2 : j < st.nreq - 1 := by omega
              have hthis := hall j hj2
              simp only [getCell] at hthis
              rwa [getD_set_ne _ _ _ _ (fun he => hji he.symm)] at hthis
        · intro x hx
          refine h.localNone x ?_
          rcases hx with hx | hx | ⟨j, hj, hr⟩
          · exact Or.inl hx
          · exact Or.inr (Or.inl hx)
          · have hjlt : j < st.nreq - 1 := hj
            simp only [getCell] at hr
            by_cases hji : j = i
            · subst hji
              rw [getD_set_eq _ _ _ hi32] at hr
              exact Or.inr (Or.inr ⟨st.nreq - 1, hlast, hr⟩)
            · rw [getD_set_ne _ _ _ _ (fun he => hji he.symm)] at hr
              exact Or.inr (Or.inr ⟨j, by omega, hr⟩)
        · intro hre
          exfalso
          have hre2 : st.reof = false := hre
          rw [hre2] at hreof
          exact absurd hreof (by simp)
      · -- create a fresh request at the cursor
        rw [if_neg h3]
        push_neg at h3
        have hreof : st.reof = false := by
          rcases h3 with ⟨h3a, _⟩
          simpa using h3a
        refine ⟨⟨?_, h.nreqLe, h.blenNonneg, by simpa using h.nbadZero,
          ?_, ?_, ?_, ?_, ?_, ?_, ?_, ?_⟩,
          le_of_lt hi, le_refl _, rfl, rfl, rfl, Nat.le_add_right _ _⟩
        · simpa using h.cellsLen
        · intro j hj
          simp only [getCell]
          by_cases hji : j = i
          · subst hji
            rw [getD_set_eq _ _ _ hi32]
            exact h.blenNonneg
          · rw [getD_set_ne _ _ _ _ (fun he => hji he.symm)]
            exact h.lenNonneg j hj
        · intro j hj
          simp only [getCell]
          by_cases hji : j = i
          · subst hji
            rw [getD_set_eq _ _ _ hi32]
            exact Int.natCast_nonneg _
          · rw [getD_set_ne _ _ _ _ (fun he => hji he.symm)]
            exact h.reqNonneg j hj
        · intro j hj
          dsimp only at hj ⊢
          simp only [getCell]
          by_cases hji : j = i
          · subst hji
            rw [getD_set_eq _ _ _ hi32]
          · rw [getD_set_ne _ _ _ _ (fun he => hji he.symm)]
            have hrs := h.rangeSub j hj
            simp only [getCell] at hrs
            omega
        · intro j hj k hk hne
          simp only [getCell]
          by_cases hji : j = i <;> by_cases hki : k = i
          · exact absurd (hji.trans hki.symm) hne
          · subst hji
            rw [getD_set_eq _ _ _ hi32,
              getD_set_ne _ _ _ _ (fun he => hki he.symm)]
            exact Or.inr (h.rangeSub k hk)
          · subst hki
            rw [getD_set_eq _ _ _ hi32,
              getD_set_ne _ _ _ _ (fun he => hji he.symm)]
            exact Or.inl (h.rangeSub j hj)
          · rw [getD_set_ne _ _ _ _ (fun he => hji he.symm),
              getD_set_ne _ _ _ _ (fun he => hki he.symm)]
            exact h.disj j hj k hk hne
        · intro hw x hx1 hx2 hall
          by_cases hxc : x < st.cursor
          · refine h.localSome hw x hx1 hxc ?_
            intro j hj
            by_cases hji : j = i
            · subst hji
              intro hr
              rcases hr with ⟨hr1, hr2⟩
              rw [h2] at hr2
              simp at hr2
              omega
            · have hthis := hall j hj
              simp only [getCell] at hthis
              rwa [getD_set_ne _ _ _ _ (fun he => hji he.symm)] at hthis
          · exfalso
            have hthis := hall i hi
            simp only [getCell] at hthis
            rw [getD_set_eq _ _ _ hi32] at hthis
            dsimp only at hx2
            refine hthis ⟨by dsimp only [inRange]; omega, by dsimp only [inRange]; omega⟩
        · intro x hx
          refine h.localNone x ?_
          rcases hx with hx | hx | ⟨j, hj, hr⟩
          · exact Or.inl hx
          · exact Or.inr (Or.inl (by dsimp only at hx; omega))
          · simp only [getCell] at hr
            by_cases hji : j = i
            · subst hji
              rw [getD_set_eq _ _ _ hi32] at hr
              exact Or.inr (Or.inl hr.1)
            · rw [getD_set_ne _ _ _ _ (fun he => hji he.symm)] at hr
              exact Or.inr (Or.inr ⟨j, hj, hr⟩)
        · intro hre
          exfalso
          have hre2 : st.reof = true := hre
          rw [hreof] at hre2
          exact absurd hre2 (by simp)
        · intro hre j hj1 hj2
          dsimp only at hj1
          have hji : i ≠ j := by omega
          simp only [getCell]
          rw [getD_set_ne _ _ _ _ hji]
          exact h.staleZero hreof j hj1 hj2

theorem collect_one_inv (env : GetEnv) (hconf : GetEnvConform env)
    (st : GetState) (i : Nat) (hi : i < st.nreq) (h : GetInv env st)
    (hwerr : st.werr = false) :
    GetInv env (collect_one env st i)
    ∧ (collect_one env st i).nreq = st.nreq := by
  have hi32 : i < st.cells.length := by
    have := h.nreqLe; rw [h.cellsLen]; omega
  have hreq0 : 0 ≤ (getCell st i).req := h.reqNonneg i hi
  have hlen0 : 0 ≤ (getCell st i).len := h.lenNonneg i hi
  have hsub := h.rangeSub i hi
  simp only [getCell] at hlen0 hsub
  simp only [collect_one, if_pos hreq0]
  by_cases hr1 : env.poll st.pollCnt (getCell st i).off (getCell st i).len > 0
  · -- data response: write at the slot offset, advance it, shrink the length
    rw [if_pos hr1]
    have hcf := (hconf st.pollCnt (getCell st i).off (getCell st i).len).2 hr1
    obtain ⟨hrle, hrsz⟩ := hcf
    simp only [getCell] at hrle hrsz hr1
    refine ⟨⟨?_, h.nreqLe, h.blenNonneg, h.nbadZero, ?_, ?_, ?_, ?_, ?_, ?_,
      ?_, ?_⟩, rfl⟩
    · simpa using h.cellsLen
    · intro j hj
      dsimp only at hj ⊢
      simp only [getCell]
      by_cases hji : j = i
      · subst hji
        rw [getD_set_eq _ _ _ hi32]
        dsimp only
        omega
      · rw [getD_set_ne _ _ _ _ (fun he => hji he.symm)]
        exact h.lenNonneg j hj
    · intro j hj
      dsimp only at hj ⊢
      simp only [getCell]
      by_cases hji : j = i
      · subst hji
        rw [getD_set_eq _ _ _ hi32]
        exact hreq0
      · rw [getD_set_ne _ _ _ _ (fun he => hji he.symm)]
        exact h.reqNonneg j hj
    · intro j hj
      dsimp only at hj ⊢
      simp only [getCell]
      by_cases hji : j = i
      · subst hji
        rw [getD_set_eq _ _ _ hi32]
        dsimp only
        omega
      · rw [getD_set_ne _ _ _ _ (fun he => hji he.symm)]
        exact h.rangeSub j hj
    · intro j hj k hk hne
      dsimp only at hj hk ⊢
      simp only [getCell]
      by_cases hji : j = i <;> by_cases hki : k = i
      · exact absurd (hji.trans hki.symm) hne
      · subst hji
        rw [getD_set_eq _ _ _ hi32,
          getD_set_ne _ _ _ _ (fun he => hki he.symm)]
        have hd := h.disj j hj k hk hne
        simp only [rangesDisjoint, getCell] at hd ⊢
        omega
      · subst hki
        rw [getD_set_eq _ _ _ hi32,
          getD_set_ne _ _ _ _ (fun he => hji he.symm)]
        have hd := h.disj j hj k hk hne
        simp only [rangesDisjoint, getCell] at hd ⊢
        omega
      · rw [getD_set_ne _ _ _ _ (fun he => hji he.symm),
          getD_set_ne _ _ _ _ (fun he => hki he.symm)]
        exact h.disj j hj k hk hne
    · intro hw x hx1 hx2 hall
      dsimp only at hw hx2 ⊢
      by_cases hok : env.sinkOk st.sinkCnt = true
      · rw [hok] at hw ⊢
        simp only [eq_self_iff_true, if_true, writeRange]
        by_cases hxw : (getCell st i).off ≤ x ∧
            x < (getCell st i).off +
              (env.poll st.pollCnt (getCell st i).off (getCell st i).len).toNat
        · rw [if_pos hxw]
        · rw [if_neg hxw]
          refine h.localSome hwerr x hx1 hx2 ?_
          intro j hj
          by_cases hji : j = i
          · subst hji
            have hxw2 := hxw
            simp only [getCell] at hxw2
            have hthis := hall j hj
            simp only [getCell] at hthis
            rw [getD_set_eq _ _ _ hi32] at hthis
            simp only [inRange] at hthis ⊢
            simp only [getCell]
            omega
          · have hthis := hall j hj
            simp only [getCell] at hthis
            rwa [getD_set_ne _ _ _ _ (fun he => hji he.symm)] at hthis
      · exfalso
        rw [Bool.not_eq_true] at hok
        rw [hok] at hw
        simp at hw
    · intro x hx
      dsimp only at hx ⊢
      have hnone : st.localFile x = none := by
        refine h.localNone x ?_
        rcases hx with hx | hx | ⟨j, hj, hr⟩
        · exact Or.inl hx
        · exact Or.inr (Or.inl hx)
        · simp only [getCell] at hr
          by_cases hji : j = i
          · subst hji
            rw [getD_set_eq _ _ _ hi32] at hr
            simp only [inRange] at hr
            refine Or.inr (Or.inr ⟨j, hj, ?_⟩)
            simp only [inRange, getCell]
            omega
          · rw [getD_set_ne _ _ _ _ (fun he => hji he.symm)] at hr
            exact Or.inr (Or.inr ⟨j, hj, hr⟩)
      have hxout : ¬ ((getCell st i).off ≤ x ∧
          x < (getCell st i).off +
            (env.poll st.pollCnt (getCell st i).off (getCell st i).len).toNat) := by
        simp only [getCell]
        rcases hx with hx | hx | ⟨j, hj, hr⟩
        · omega
        · omega
        · simp only [getCell] at hr
          by_cases hji : j = i
          · subst hji
            rw [getD_set_eq _ _ _ hi32] at hr
            simp only [inRange] at hr
            omega
          · rw [getD_set_ne _ _ _ _ (fun he => hji he.symm)] at hr
            have hd := h.disj i hi j hj (fun he => hji he.symm)
            simp only [rangesDisjoint, getCell] at hd
            simp only [inRange, getCell] at hr
            have hrs := h.rangeSub j hj
            simp only [getCell] at hrs
            omega
      by_cases hok : env.sinkOk st.sinkCnt = true
      · rw [hok]
        simp only [eq_self_iff_true, if_true, writeRange]
        rw [if_neg hxout]
        exact hnone
      · rw [Bool.not_eq_true] at hok
        rw [hok]
        simp only [Bool.false_eq_true, if_false]
        exact hnone
    · intro hre
      dsimp only at hre
      exact Nat.le_trans (h.reofCursor hre) (le_refl _)
    · intro hre j hj1 hj2
      dsimp only at hre hj1 ⊢
      have hji : i ≠ j := by omega
      simp only [getCell]
      rw [getD_set_ne _ _ _ _ hji]
      exact h.staleZero hre j hj1 hj2
  · rw [if_neg hr1]
    by_cases hr2 : env.poll st.pollCnt (getCell st i).off (getCell st i).len = 0
    · -- end-of-file response: empty the slot and record eof
      rw [if_pos hr2]
      have hsz : env.size ≤ (getCell st i).off :=
        (hconf st.pollCnt (getCell st i).off (getCell st i).len).1 hr2
      have hsz2 := hsz
      simp only [getCell] at hsz2
      refine ⟨⟨?_, h.nreqLe, h.blenNonneg, h.nbadZero, ?_, ?_, ?_, ?_, ?_, ?_,
        ?_, ?_⟩, rfl⟩
      · simpa using h.cellsLen
      · intro j hj
        dsimp only at hj ⊢
        simp only [getCell]
        by_cases hji : j = i
        · subst hji
          rw [getD_set_eq _ _ _ hi32]
        · rw [getD_set_ne _ _ _ _ (fun he => hji he.symm)]
          exact h.lenNonneg j hj
      · intro j hj
        dsimp only at hj ⊢
        simp only [getCell]
        by_cases hji : j = i
        · subst hji
          rw [getD_set_eq _ _ _ hi32]
          exact hreq0
        · rw [getD_set_ne _ _ _ _ (fun he => hji he.symm)]
          exact h.reqNonneg j hj
      · intro j hj
        dsimp only at hj ⊢
        simp only [getCell]
        by_cases hji : j = i
        · subst hji
          rw [getD_set_eq _ _ _ hi32]
          dsimp only
          omega
        · rw [getD_set_ne _ _ _ _ (fun he => hji he.symm)]
          exact h.rangeSub j hj
      · intro j hj k hk hne
        dsimp only at hj hk ⊢
        simp only [getCell]
        by_cases hji : j = i <;> by_cases hki : k = i
        · exact absurd (hji.trans hki.symm) hne
        · subst hji
          rw [getD_set_eq _ _ _ hi32,
            getD_set_ne _ _ _ _ (fun he => hki he.symm)]
          have hd := h.disj j hj k hk hne
          simp only [rangesDisjoint, getCell] at hd ⊢
          omega
        · subst hki
          rw [getD_set_eq _ _ _ hi32,
            getD_set_ne _ _ _ _ (fun he => hji he.symm)]
          have hd := h.disj j hj k hk hne
          simp only [rangesDisjoint, getCell] at hd ⊢
          omega
        · rw [getD_set_ne _ _ _ _ (fun he => hji he.symm),
            getD_set_ne _ _ _ _ (fun he => hki he.symm)]
          exact h.disj j hj k hk hne
      · intro hw x hx1 hx2 hall
        dsimp only at hw hx2 ⊢
        refine h.localSome hw x hx1 hx2 ?_
        intro j hj
        by_cases hji : j = i
        · subst hji
          intro hr
          simp only [inRange] at hr
          omega
        · have hthis := hall j hj
          simp only [getCell] at hthis
          rwa [getD_set_ne _ _ _ _ (fun he => hji he.symm)] at hthis
      · intro x hx
        dsimp only at hx ⊢
        refine h.localNone x ?_
        rcases hx with hx | hx | ⟨j, hj, hr⟩
        · exact Or.inl hx
        · exact Or.inr (Or.inl hx)
        · simp only [getCell] at hr
          by_cases hji : j = i
          · subst hji
            rw [getD_set_eq _ _ _ hi32] at hr
            simp only [inRange] at hr
            omega
          · rw [getD_set_ne _ _ _ _ (fun he => hji he.symm)] at hr
            exact Or.inr (Or.inr ⟨j, hj, hr⟩)
      · intro _
        dsimp only
        omega
      · intro hre
        dsimp only at hre
        simp at hre
    · rw [if_neg hr2]
      by_cases hr3 : env.poll st.pollCnt (getCell st i).off (getCell st i).len ≠ SSH_AGAIN
      · -- genuine read error: record it, keep the slot untouched
        rw [if_pos hr3]
        refine ⟨⟨?_, h.nreqLe, h.blenNonneg, h.nbadZero, ?_, ?_, ?_, ?_, ?_, ?_,
          h.reofCursor, ?_⟩, rfl⟩
        · simpa using h.cellsLen
        · intro j hj
          dsimp only at hj ⊢
          simp only [getCell]
          by_cases hji : j = i
          · subst hji
            rw [getD_set_eq _ _ _ hi32]
            exact hlen0
          · rw [getD_set_ne _ _ _ _ (fun he => hji he.symm)]
            exact h.lenNonneg j hj
        · intro j hj
          dsimp only at hj ⊢
          simp only [getCell]
          by_cases hji : j = i
          · subst hji
            rw [getD_set_eq _ _ _ hi32]
            exact hreq0
          · rw [getD_set_ne _ _ _ _ (fun he => hji he.symm)]
            exact h.reqNonneg j hj
        · intro j hj
          dsimp only at hj ⊢
          simp only [getCell]
          by_cases hji : j = i
          · subst hji
            rw [getD_set_eq _ _ _ hi32]
            exact hsub
          · rw [getD_set_ne _ _ _ _ (fun he => hji he.symm)]
            exact h.rangeSub j hj
        · intro j hj k hk hne
          dsimp only at hj hk ⊢
          simp only [getCell]
          by_cases hji : j = i <;> by_cases hki : k = i
          · exact absurd (hji.trans hki.symm) hne
          · subst hji
            rw [getD_set_eq _ _ _ hi32,
              getD_set_ne _ _ _ _ (fun he => hki he.symm)]
            exact h.disj j hj k hk hne
          · subst hki
            rw [getD_set_eq _ _ _ hi32,
              getD_set_ne _ _ _ _ (fun he => hji he.symm)]
            exact h.disj j hj k hk hne
          · rw [getD_set_ne _ _ _ _ (fun he => hji he.symm),
              getD_set_ne _ _ _ _ (fun he => hki he.symm)]
            exact h.disj j hj k hk hne
        · intro hw x hx1 hx2 hall
          dsimp only at hw hx2 ⊢
          refine h.localSome hw x hx1 hx2 ?_
          intro j hj
          have hthis := hall j hj
          simp only [getCell] at hthis
          by_cases hji : j = i
          · subst hji
            rwa [getD_set_eq _ _ _ hi32] at hthis
          · rwa [getD_set_ne _ _ _ _ (fun he => hji he.symm)] at hthis
        · intro x hx
          dsimp only at hx ⊢
          refine h.localNone x ?_
          rcases hx with hx | hx | ⟨j, hj, hr⟩
          · exact Or.inl hx
          · exact Or.inr (Or.inl hx)
          · simp only [getCell] at hr
            by_cases hji : j = i
            · subst hji
              rw [getD_set_eq _ _ _ hi32] at hr
              exact Or.inr (Or.inr ⟨j, hj, hr⟩)
            · rw [getD_set_ne _ _ _ _ (fun he => hji he.symm)] at hr
              exact Or.inr (Or.inr ⟨j, hj, hr⟩)
        · intro hre j hj1 hj2
          dsimp only at hre hj1 ⊢
          have hji : i ≠ j := by omega
          simp only [getCell]
          rw [getD_set_ne _ _ _ _ hji]
          exact h.staleZero hre j hj1 hj2
      · -- still waiting: rewrite the slot with the same data
        rw [if_neg hr3]
        refine ⟨⟨?_, h.nreqLe, h.blenNonneg, h.nbadZero, ?_, ?_, ?_, ?_, ?_, ?_,
          h.reofCursor, ?_⟩, rfl⟩
        · simpa using h.cellsLen
        · intro j hj
          dsimp only at hj ⊢
          simp only [getCell]
          by_cases hji : j = i
          · subst hji
            rw [getD_set_eq _ _ _ hi32]
            exact hlen0
          · rw [getD_set_ne _ _ _ _ (fun he => hji he.symm)]
            exact h.lenNonneg j hj
        · intro j hj
          dsimp only at hj ⊢
          simp only [getCell]
          by_cases hji : j = i
          · subst hji
            rw [getD_set_eq _ _ _ hi32]
            exact hreq0
          · rw [getD_set_ne _ _ _ _ (fun he => hji he.symm)]
            exact h.reqNonneg j hj
        · intro j hj
          dsimp only at hj ⊢
          simp only [getCell]
          by_cases hji : j = i
          · subst hji
            rw [getD_set_eq _ _ _ hi32]
            exact hsub
          · rw [getD_set_ne _ _ _ _ (fun he => hji he.symm)]
            exact h.rangeSub j hj
        · intro j hj k hk hne
          dsimp only at hj hk ⊢
          simp only [getCell]
          by_cases hji : j = i <;> by_cases hki : k = i
          · exact absurd (hji.trans hki.symm) hne
          · subst hji
            rw [getD_set_eq _ _ _ hi32,
              getD_set_ne _ _ _ _ (fun he => hki he.symm)]
            exact h.disj j hj k hk hne
          · subst hki
            rw [getD_set_eq _ _ _ hi32,
              getD_set_ne _ _ _ _ (fun he => hji he.symm)]
            exact h.disj j hj k hk hne
          · rw [getD_set_ne _ _ _ _ (fun he => hji he.symm),
              getD_set_ne _ _ _ _ (fun he => hki he.symm)]
            exact h.disj j hj k hk hne
        · intro hw x hx1 hx2 hall
          dsimp only at hw hx2 ⊢
          refine h.localSome hw x hx1 hx2 ?_
          intro j hj
          have hthis := hall j hj
          simp only [getCell] at hthis
          by_cases hji : j = i
          · subst hji
            rwa [getD_set_eq _ _ _ hi32] at hthis
          · rwa [getD_set_ne _ _ _ _ (fun he => hji he.symm)] at hthis
        · intro x hx
          dsimp only at hx ⊢
          refine h.localNone x ?_
          rcases hx with hx | hx | ⟨j, hj, hr⟩
          · exact Or.inl hx
          · exact Or.inr (Or.inl hx)
          · simp only [getCell] at hr
            by_cases hji : j = i
            · subst hji
              rw [getD_set_eq _ _ _ hi32] at hr
              exact Or.inr (Or.inr ⟨j, hj, hr⟩)
            · rw [getD_set_ne _ _ _ _ (fun he => hji he.symm)] at hr
              exact Or.inr (Or.inr ⟨j, hj, hr⟩)
        · intro hre j hj1 hj2
          dsimp only at hre hj1 ⊢
          have hji : i ≠ j := by omega
          simp only [getCell]
          rw [getD_set_ne _ _ _ _ hji]
          exact h.staleZero hre j hj1 hj2

theorem dispatch_from_inv (env : GetEnv) (hbegin : GetEnvBeginOk env) :
    ∀ (n : Nat) (st : GetState), n ≤ st.nreq → GetInv env st →
    GetInv env (dispatch_from env st n)
    ∧ (dispatch_from env st n).nreq ≤ st.nreq := by
  intro n
  induction n with
  | zero => intro st _ h; exact ⟨h, le_refl _⟩
  | succ n ih =>
      intro st hn h
      simp only [dispatch_from]
      by_cases hr : st.rerr = true
      · rw [if_pos hr]; exact ⟨h, le_refl _⟩
      · rw [if_neg hr]
        obtain ⟨h1, h2, h3, _⟩ := dispatch_one_inv env hbegin st n (by omega) h
        obtain ⟨h4, h5⟩ := ih (dispatch_one env st n) h2 h1
        exact ⟨h4, le_trans h5 h3⟩

theorem collect_from_inv (env : GetEnv) (hconf : GetEnvConform env) :
    ∀ (n : Nat) (st : GetState), n ≤ st.nreq → GetInv env st →
    GetInv env (collect_from env st n)
    ∧ (collect_from env st n).nreq = st.nreq := by
  intro n
  induction n with
  | zero => intro st _ h; exact ⟨h, rfl⟩
  | succ n ih =>
      intro st hn h
      simp only [collect_from]
      by_cases hc : st.rerr = true ∨ st.werr = true
      · rw [if_pos hc]; exact ⟨h, rfl⟩
      · rw [if_neg hc]
        push_neg at hc
        have hwerr : st.werr = false := by simpa using hc.2
        obtain ⟨h1, h2⟩ := collect_one_inv env hconf st n (by omega) h hwerr
        obtain ⟨h3, h4⟩ := ih (collect_one env st n) (by omega) h1
        rw [h4, h2]
        exact ⟨h3, rfl⟩

theorem getfile_update_inv (env : GetEnv) (st : GetState) (h : GetInv env st) :
    GetInv env (getfile_update st) := by
  simp only [getfile_update]
  have hblen : 0 ≤ (if 0 < st.rlen ∧ st.rlen < st.blen ∧ st.blen > 512
      then st.blen / 2 else st.blen) := by
    split
    · exact Int.ediv_nonneg h.blenNonneg (by norm_num)
    · exact h.blenNonneg
  by_cases hg : st.nbad > 0 ∨ st.reof = true ∨ st.nreq ≥ 32
  · rw [if_pos hg]
    exact ⟨h.cellsLen, h.nreqLe, hblen, h.nbadZero, h.lenNonneg, h.reqNonneg,
      h.rangeSub, h.disj, h.localSome, h.localNone, h.reofCursor, h.staleZero⟩
  · rw [if_neg hg]
    push_neg at hg
    obtain ⟨hnb, hre, hn32⟩ := hg
    have hreof : st.reof = false := by simpa using hre
    have hzero : getCell st st.nreq = zeroCell :=
      h.staleZero hreof st.nreq (le_refl _) (by omega)
    refine ⟨h.cellsLen, (by omega : st.nreq + 1 ≤ 32), hblen, h.nbadZero,
      ?_, ?_, ?_, ?_, ?_, ?_, h.reofCursor, ?_⟩
    · intro j hj
      dsimp only at hj ⊢
      by_cases hjn : j = st.nreq
      · have hz : getCell st j = zeroCell := by rw [hjn]; exact hzero
        show 0 ≤ (getCell st j).len
        rw [hz]
        simp [zeroCell]
      · exact h.lenNonneg j (by omega)
    · intro j hj
      dsimp only at hj ⊢
      by_cases hjn : j = st.nreq
      · have hz : getCell st j = zeroCell := by rw [hjn]; exact hzero
        show 0 ≤ (getCell st j).req
        rw [hz]
        simp [zeroCell]
      · exact h.reqNonneg j (by omega)
    · intro j hj
      dsimp only at hj ⊢
      by_cases hjn : j = st.nreq
      · have hz : getCell st j = zeroCell := by rw [hjn]; exact hzero
        show (getCell st j).off + (getCell st j).len.toNat ≤ st.cursor
        rw [hz]
        simp [zeroCell]
      · exact h.rangeSub j (by omega)
    · intro j hj k hk hne
      dsimp only at hj hk ⊢
      show rangesDisjoint (getCell st j) (getCell st k)
      by_cases hjn : j = st.nreq
      · have hz : getCell st j = zeroCell := by rw [hjn]; exact hzero
        rw [hz]
        exact zeroCell_disjoint_left _
      · by_cases hkn : k = st.nreq
        · have hz : getCell st k = zeroCell := by rw [hkn]; exact hzero
          rw [hz]
          exact zeroCell_disjoint_right _
        · exact h.disj j (by omega) k (by omega) hne
    · intro hw x hx1 hx2 hall
      dsimp only at hw hx2 hall ⊢
      refine h.localSome hw x hx1 hx2 ?_
      intro j hj
      exact hall j (by omega)
    · intro x hx
      dsimp only at hx ⊢
      refine h.localNone x ?_
      rcases hx with hx | hx | ⟨j, hj, hr⟩
      · exact Or.inl hx
      · exact Or.inr (Or.inl hx)
      · by_cases hjn : j = st.nreq
        · have hz : getCell st j = zeroCell := by rw [hjn]; exact hzero
          have hr2 : inRange (getCell st j) x := hr
          rw [hz] at hr2
          exact absurd hr2 (not_inRange_zeroCell x)
        · exact Or.inr (Or.inr ⟨j, by omega, hr⟩)
    · intro hre2 j hj1 hj2
      dsimp only at hre2 hj1 ⊢
      exact h.staleZero hre2 j (by omega) hj2

theorem getfile_cycle_inv (env : GetEnv) (hconf : GetEnvConform env)
    (hbegin : GetEnvBeginOk env) (st : GetState) (h : GetInv env st) :
    GetInv env (getfile_cycle env st) := by
  simp only [getfile_cycle]
  obtain ⟨h1, _⟩ := dispatch_from_inv env hbegin st.nreq st (le_refl _) h
  obtain ⟨h2, _⟩ := collect_from_inv env hconf
    (dispatch_from env st st.nreq).nreq (dispatch_from env st st.nreq)
    (le_refl _) h1
  exact getfile_update_inv env _ h2

theorem getfile_steps_inv (env : GetEnv) (hconf : GetEnvConform env)
    (hbegin : GetEnvBeginOk env) : ∀ k, GetInv env (getfile_steps env k) := by
  intro k
  induction k with
  | zero => exact getInv_init env
  | succ k ih =>
      simp only [getfile_steps, getfile_step]
      by_cases hc : getfile_cond (getfile_steps env k)
      · rw [if_pos hc]
        exact getfile_cycle_inv env hconf hbegin _ ih
      · rw [if_neg hc]
        exact ih

theorem collect_one_off_mono (env : GetEnv) (st : GetState) (i : Nat)
    (hlen : i < st.cells.length) :
    (getCell st i).off ≤ (getCell (collect_one env st i) i).off := by
  simp only [collect_one]
  by_cases h0 : (getCell st i).req ≥ 0
  · rw [if_pos h0]
    by_cases hr1 : env.poll st.pollCnt (getCell st i).off (getCell st i).len > 0
    · rw [if_pos hr1]
      simp only [getCell]
      rw [getD_set_eq _ _ _ hlen]
      dsimp only
      omega
    · rw [if_neg hr1]
      by_cases hr2 : env.poll st.pollCnt (getCell st i).off (getCell st i).len = 0
      · rw [if_pos hr2]
        simp only [getCell]
        rw [getD_set_eq _ _ _ hlen]
      · rw [if_neg hr2]
        by_cases hr3 : env.poll st.pollCnt (getCell st i).off (getCell st i).len
            ≠ SSH_AGAIN
        · rw [if_pos hr3]
          simp only [getCell]
          rw [getD_set_eq _ _ _ hlen]
        · rw [if_neg hr3]
          simp only [getCell]
          rw [getD_set_eq _ _ _ hlen]
  · rw [if_neg h0]

/-- C7 (amended): provided every request issuance succeeds and the server
responses are protocol conformant, the active slots' byte ranges are pairwise
disjoint at every reachable state of the download loop, a polled slot's
offset only ever advances, every local write is positioned at the slot's
offset (the `writeRange` at `off` in the collection step), and a successful
run reconstructs the remote content exactly: every byte below the file size
is written once with the remote value and nothing is written at or beyond the
file size.  Without the no-failed-issuance hypothesis the disjointness claim
is false — see the counterexample. -/
theorem c7_download_disjoint_ranges_content (env : GetEnv)
    (hconf : GetEnvConform env) (hbegin : GetEnvBeginOk env) :
    (∀ k, activeDisjoint (getfile_steps env k))
    ∧ (∀ (st : GetState) (i : Nat), i < st.cells.length →
        (getCell st i).off ≤ (getCell (collect_one env st i) i).off)
    ∧ (∀ fuel final, getfile_run env fuel = some (.ok (), final) →
        (∀ x, x < env.size → final.localFile x = some (env.remote x))
        ∧ (∀ x, env.size ≤ x → final.localFile x = none)) := by
  refine ⟨fun k => (getfile_steps_inv env hconf hbegin k).disj,
    collect_one_off_mono env, ?_⟩
  intro fuel final hrun
  unfold getfile_run at hrun
  by_cases hc : getfile_cond (getfile_steps env fuel)
  · rw [if_pos hc] at hrun; exact absurd hrun (by simp)
  · rw [if_neg hc] at hrun
    rw [Option.some_inj, Prod.mk.injEq] at hrun
    obtain ⟨hres, hfin⟩ := hrun
    obtain ⟨hw, hr, hnb⟩ := getfile_finalize_ok env _ hres
    have hle := getfile_cond_false _ (by simpa using hc) hw hr
    have hnb0 : (getfile_steps env fuel).nbad = 0 := by omega
    have hnr0 : (getfile_steps env fuel).nreq = 0 := by omega
    have hreof := getfile_steps_drained_reof env fuel hnr0 hnb0
    have hinv := getfile_steps_inv env hconf hbegin fuel
    subst hfin
    constructor
    · intro x hx
      exact hinv.localSome hw x hx
        (lt_of_lt_of_le hx (hinv.reofCursor hreof))
        (fun i hi => absurd hi (by omega))
    · intro x hx
      exact hinv.localNone x (Or.inl hx)

theorem oneByteEnv_conform : GetEnvConform oneByteEnv := by
  intro c o l
  simp only [GetEnvConform, oneByteEnv]
  constructor
  · intro h0
    by_cases h1 : 1 ≤ o
    · exact h1
    · exfalso
      rw [if_neg h1] at h0
      by_cases h2 : l ≤ 0
      · rw [if_pos h2] at h0; norm_num [SSH_AGAIN] at h0
      · rw [if_neg h2] at h0; norm_num at h0
  · intro hp
    by_cases h1 : 1 ≤ o
    · rw [if_pos h1] at hp; omega
    · rw [if_neg h1] at hp ⊢
      by_cases h2 : l ≤ 0
      · rw [if_pos h2] at hp; norm_num [SSH_AGAIN] at hp
      · rw [if_neg h2] at hp ⊢
        omega

/-- C7 witness: the one-byte download run at the conformant single-byte
server: the reconstructed local file holds the remote byte at offset 0, and
the slot ranges stay pairwise disjoint. -/
theorem c7_download_witness :
    (getfile_steps oneByteEnv 3).localFile 0 = some (oneByteEnv.remote 0)
    ∧ activeDisjoint (getfile_steps oneByteEnv 2) := by
  have h := c7_download_disjoint_ranges_content oneByteEnv oneByteEnv_conform
    (fun n => rfl)
  refine ⟨(h.2.2 3 (getfile_steps oneByteEnv 3) rfl).1 0 ?_, h.1 2⟩
  norm_num [oneByteEnv]

/-- C7 counterexample: against a protocol-conformant server (every response
is `SSH_AGAIN`) whose second request issuance fails, the retried request is
re-sent at an offset the cursor was never advanced past, and the next created
slot duplicates its byte range: after four cycles two distinct active slots
cover the same range, so the ranges are not pairwise disjoint. -/
theorem c7_disjointness_counterexample :
    ¬ activeDisjoint (getfile_steps beginFailEnv 4)
    ∧ GetEnvConform beginFailEnv := by
  constructor
  · decide
  · intro c o l
    constructor
    · intro h0; norm_num [beginFailEnv, SSH_AGAIN] at h0
    · intro hp; norm_num [beginFailEnv, SSH_AGAIN] at hp

end Mexsftp